import Mathlib

/-!
# FabricFusion image-blending core: a shallow embedding

This file embeds the image-processing core of `app.py` (class
`SimpleFabricFusion`): loading fabric and print rasters, resizing and
tiling the print, and per-pixel blend-mode compositing.  Rasters are
modelled as a structure carrying height, width, channel count and a
total pixel function valued in `ℚ`; 8-bit rasters hold integral values
in `[0, 255]`.  NumPy float arithmetic is modelled by exact rational
arithmetic; the `uint8` cast is modelled as truncation toward zero
followed by reduction modulo 256.
-/

/-- An in-memory raster: height, width, channel count, and a total pixel
function `px y x k` giving the value of channel `k` of the pixel in row
`y`, column `x`.  Only indices `y < h`, `x < w`, `k < c` are meaningful. -/
structure Image where
  h : ℕ
  w : ℕ
  c : ℕ
  px : ℕ → ℕ → ℕ → ℚ

/-- Python `int()` applied to a float: truncation toward zero. -/
def pytrunc (q : ℚ) : ℤ := if 0 ≤ q then ⌊q⌋ else -⌊-q⌋

/-- NumPy `astype(np.uint8)` applied to a float value: C-style conversion,
truncation toward zero then reduction modulo 256. -/
def uint8cast (q : ℚ) : ℕ := ((pytrunc q) % 256).toNat

/-- The same conversion with clamping to `[0, 255]` instead of wraparound;
used to state that the cast in `blend_images` never wraps. -/
def clampCast (q : ℚ) : ℕ := min 255 (max 0 (pytrunc q)).toNat

/-- `int(np.ceil(a / b))` for natural `a`, `b` (`b > 0`): ceiling division. -/
def npCeilDiv (a b : ℕ) : ℕ := (a + b - 1) / b

/-- `cv2.imread(path)` with the default `IMREAD_COLOR` flag, applied to the
file's decoded raster (the decode itself is external to the repository):
per OpenCV's documented semantics the result always has exactly 3 BGR
channels, any alpha channel being dropped. -/
def imreadColor (decoded : Image) : Image :=
  { h := decoded.h, w := decoded.w, c := 3, px := decoded.px }

/-- `cv2.imread(path, cv2.IMREAD_UNCHANGED)`: the decoded raster is returned
as stored in the file (BGR or BGRA channel order). -/
def imreadUnchanged (decoded : Image) : Image := decoded

/-- `cv2.cvtColor(img, cv2.COLOR_BGR2RGB)`: swap channels 0 and 2. -/
def cvtColor_BGR2RGB (img : Image) : Image :=
  { h := img.h, w := img.w, c := 3, px := fun y x k => img.px y x (2 - k) }

/-- `cv2.cvtColor(img, cv2.COLOR_BGRA2RGBA)`: swap channels 0 and 2, keep
the alpha channel 3. -/
def cvtColor_BGRA2RGBA (img : Image) : Image :=
  { h := img.h, w := img.w, c := 4,
    px := fun y x k => if k = 3 then img.px y x 3 else img.px y x (2 - k) }

/-- `SimpleFabricFusion.load_fabric` (src/app.py lines 17-21), as a function
of the file's decoded raster: `cv2.imread(path)` then BGR→RGB. -/
def load_fabric (decoded : Image) : Image :=
  cvtColor_BGR2RGB (imreadColor decoded)

/-- Python `str.lower()`: lowercase every character of the string. -/
def pyLower (s : String) : String := ⟨s.data.map Char.toLower⟩

/-- Python `str.endswith(suffix)`: the string's character sequence ends
with the suffix's character sequence. -/
def pyEndsWith (s suffix : String) : Bool :=
  List.drop (s.data.length - suffix.data.length) s.data == suffix.data

/-- `SimpleFabricFusion.load_print` (src/app.py lines 23-35), as a function
of the path string and the file's decoded raster.  The branch condition is
the source's `path.lower().endswith(('png', 'PNG'))`: after `lower()` the
`'PNG'` alternative can never match, so the effective test is that the
lowercased path ends with `"png"`. -/
def load_print (path : String) (decoded : Image) : Image :=
  if pyEndsWith (pyLower path) "png" then
    if (imreadUnchanged decoded).c = 4 then
      cvtColor_BGRA2RGBA (imreadUnchanged decoded)
    else
      cvtColor_BGR2RGB (imreadUnchanged decoded)
  else
    cvtColor_BGR2RGB (imreadColor decoded)

/-- The spec's branch criterion, formalised from its words for comparison
with the source's condition: the path's file extension is case-insensitively
`".png"`. -/
def hasPngExtension (path : String) : Bool := pyEndsWith (pyLower path) ".png"

/-- `SimpleFabricFusion.resize_print` (src/app.py lines 37-47).  The output
geometry is the source's: `int(target_height * scale)` by
`int(target_width * scale)` (Python `int()` truncates toward zero), and
`cv2.resize` preserves the channel count.  The interpolated pixel content
produced by `cv2.resize` is external to the repository and not modelled;
the claims about this function concern only geometry and channels. -/
def resize_print (printImg : Image) (fabric_h fabric_w : ℕ) (scale : ℚ) : Image :=
  { h := (pytrunc ((fabric_h : ℚ) * scale)).toNat
    w := (pytrunc ((fabric_w : ℚ) * scale)).toNat
    c := printImg.c
    px := fun _ _ _ => 0 }

/-- The spec's stated dimension rule for `resize`: `round(target * scale)`. -/
def specRoundDim (target : ℕ) (scale : ℚ) : ℕ := (round ((target : ℚ) * scale)).toNat

/-- One iteration of the tiling loop body (src/app.py lines 69-75): write
the print into the canvas block with row range `[i*ph, (i+1)*ph)` and
column range `[j*pw, (j+1)*pw)`. -/
def writeTile (p : Image) (canvas : ℕ → ℕ → ℕ → ℚ) (i j : ℕ) : ℕ → ℕ → ℕ → ℚ :=
  fun y x k =>
    if i * p.h ≤ y ∧ y < (i + 1) * p.h ∧ j * p.w ≤ x ∧ x < (j + 1) * p.w then
      p.px (y - i * p.h) (x - j * p.w) k
    else canvas y x k

/-- The nested tiling loops `for i in range(tiles_h): for j in range(tiles_w)`
run over the zero canvas, folded in row-major order. -/
def tileCanvas (p : Image) (tiles_h tiles_w : ℕ) : ℕ → ℕ → ℕ → ℚ :=
  ((List.range tiles_h) ×ˢ (List.range tiles_w)).foldl
    (fun canvas ij => writeTile p canvas ij.1 ij.2) (fun _ _ _ => 0)

/-- `SimpleFabricFusion.tile_print` (src/app.py lines 49-79): build a canvas
of `ceil(h/ph)*ph` by `ceil(w/pw)*pw` (4 channels if the print has 4, else
3), tile the print over it, and crop to `[:h, :w]` (NumPy slicing, hence
`min` with the canvas size). -/
def tile_print (p : Image) (h w : ℕ) : Image :=
  { h := min h (npCeilDiv h p.h * p.h)
    w := min w (npCeilDiv w p.w * p.w)
    c := if p.c = 4 then 4 else 3
    px := tileCanvas p (npCeilDiv h p.h) (npCeilDiv w p.w) }

/-- The low overlay branch (src/app.py line 99): `2 * base * print`. -/
def overlayLow (b p : ℚ) : ℚ := 2 * b * p

/-- The high overlay branch (src/app.py line 100):
`1 - 2 * (1 - base) * (1 - print)`. -/
def overlayHigh (b p : ℚ) : ℚ := 1 - 2 * (1 - b) * (1 - p)

/-- `np.where(fabric_norm < 0.5, low, high)` per channel
(src/app.py line 101). -/
def overlayFormula (b p : ℚ) : ℚ :=
  if b < 1/2 then overlayLow b p else overlayHigh b p

/-- The blend-mode dispatch (src/app.py lines 98-109): the `else` branch
repeats the overlay computation, so every unknown mode string blends
exactly as `"overlay"` does. -/
def blendedFormula (mode : String) (b p : ℚ) : ℚ :=
  if mode = "overlay" then overlayFormula b p
  else if mode = "multiply" then b * p
  else if mode = "screen" then 1 - (1 - b) * (1 - p)
  else overlayFormula b p

/-- `print_img[:, :, :3]`: the RGB slice of a raster. -/
def rgbSlice (img : Image) : Image :=
  { h := img.h, w := img.w, c := 3, px := img.px }

/-- The effective per-pixel compositing strength (src/app.py lines 87-91,
112-115): `print_img[:, :, 3:4] / 255.0 * opacity` when the print has an
alpha channel, the scalar `opacity` otherwise. -/
def effStrength (printImg : Image) (opacity : ℚ) : ℕ → ℕ → ℚ :=
  fun y x => if printImg.c = 4 then printImg.px y x 3 / 255 * opacity else opacity

/-- The floating-point result of `blend_images` before the `uint8` cast
(src/app.py lines 94-115): `fabric_norm * (1 - strength) + blended * strength`. -/
def blendFloat (fabric printImg : Image) (mode : String) (opacity : ℚ) :
    ℕ → ℕ → ℕ → ℚ :=
  fun y x k =>
    let print_rgb := if printImg.c = 4 then rgbSlice printImg else printImg
    fabric.px y x k / 255 * (1 - effStrength printImg opacity y x)
      + blendedFormula mode (fabric.px y x k / 255) (print_rgb.px y x k / 255)
          * effStrength printImg opacity y x

/-- `SimpleFabricFusion.blend_images` (src/app.py lines 81-117).  The
function performs no shape check of any kind: it is total in its inputs.
The output height, width and channel count are those of the fabric, which
under the intended same-shape inputs (`fabric` is `h×w×3`, `print_img` is
`h×w×3` or `h×w×4`) is exactly the NumPy broadcast shape of the result. -/
def blend_images (fabric printImg : Image) (blend_mode : String) (opacity : ℚ) :
    Image :=
  { h := fabric.h, w := fabric.w, c := fabric.c,
    px := fun y x k =>
      ((uint8cast (blendFloat fabric printImg blend_mode opacity y x k * 255) : ℕ) : ℚ) }

/-! ## Tiling lemmas -/

/-- A block of height `ph` starting at row `i * ph` contains row `y`
exactly when `i` is the tile index `y / ph`. -/
lemma tile_cover_iff {ph : ℕ} (hph : 0 < ph) (i y : ℕ) :
    (i * ph ≤ y ∧ y < (i + 1) * ph) ↔ y / ph = i := by
  constructor
  · rintro ⟨h1, h2⟩
    exact Nat.div_eq_of_lt_le h1 h2
  · rintro rfl
    exact ⟨Nat.div_mul_le_self y ph, (Nat.div_lt_iff_lt_mul hph).1 (Nat.lt_succ_self _)⟩

/-- Subtracting the tile origin from a covered row index gives the
remainder modulo the tile height. -/
lemma sub_div_mul_eq_mod (y ph : ℕ) : y - y / ph * ph = y % ph := by
  refine Nat.sub_eq_of_eq_add ?_
  rw [Nat.add_comm, Nat.mul_comm]
  exact (Nat.div_add_mod y ph).symm

/-- One loop-body write, rephrased through tile indices. -/
lemma writeTile_px (p : Image) (hph : 0 < p.h) (hpw : 0 < p.w)
    (canvas : ℕ → ℕ → ℕ → ℚ) (i j y x k : ℕ) :
    writeTile p canvas i j y x k =
      if y / p.h = i ∧ x / p.w = j then p.px (y % p.h) (x % p.w) k
      else canvas y x k := by
  unfold writeTile
  by_cases hc : i * p.h ≤ y ∧ y < (i + 1) * p.h ∧ j * p.w ≤ x ∧ x < (j + 1) * p.w
  · have hi : y / p.h = i := (tile_cover_iff hph i y).1 ⟨hc.1, hc.2.1⟩
    have hj : x / p.w = j := (tile_cover_iff hpw j x).1 ⟨hc.2.2.1, hc.2.2.2⟩
    rw [if_pos hc, if_pos ⟨hi, hj⟩, ← hi, ← hj, sub_div_mul_eq_mod, sub_div_mul_eq_mod]
  · rw [if_neg hc, if_neg]
    rintro ⟨hi, hj⟩
    exact hc ⟨((tile_cover_iff hph i y).2 hi).1, ((tile_cover_iff hph i y).2 hi).2,
      ((tile_cover_iff hpw j x).2 hj).1, ((tile_cover_iff hpw j x).2 hj).2⟩

/-- The tiling loop, folded over any list of tile indices, writes the
periodic extension of the print at every point some listed tile covers and
leaves the rest of the canvas alone. -/
lemma tileLoop_px (p : Image) (hph : 0 < p.h) (hpw : 0 < p.w)
    (L : List (ℕ × ℕ)) (c0 : ℕ → ℕ → ℕ → ℚ) (y x k : ℕ) :
    (L.foldl (fun canvas ij => writeTile p canvas ij.1 ij.2) c0) y x k =
      if (y / p.h, x / p.w) ∈ L then p.px (y % p.h) (x % p.w) k
      else c0 y x k := by
  induction L generalizing c0 with
  | nil => simp
  | cons a L ih =>
    rw [List.foldl_cons, ih]
    by_cases hmem : (y / p.h, x / p.w) ∈ L
    · rw [if_pos hmem, if_pos (List.mem_cons.2 (Or.inr hmem))]
    · rw [if_neg hmem, writeTile_px p hph hpw]
      by_cases ha : y / p.h = a.1 ∧ x / p.w = a.2
      · have : (y / p.h, x / p.w) = a := Prod.ext ha.1 ha.2
        rw [if_pos ha, if_pos (List.mem_cons.2 (Or.inl this))]
      · rw [if_neg ha, if_neg]
        intro hmem2
        rcases List.mem_cons.1 hmem2 with h | h
        · exact ha ⟨congrArg Prod.fst h, congrArg Prod.snd h⟩
        · exact hmem h

/-- The canvas is at least as large as the target: `h ≤ ceil(h/ph) * ph`. -/
lemma le_npCeilDiv_mul (h ph : ℕ) (hph : 0 < ph) : h ≤ npCeilDiv h ph * ph := by
  rcases Nat.eq_zero_or_pos h with h0 | h1
  · simp [h0]
  · unfold npCeilDiv
    rw [show h + ph - 1 = (h - 1) + ph by omega, Nat.add_div_right _ hph]
    have hlt : h - 1 < ((h - 1) / ph + 1) * ph :=
      (Nat.div_lt_iff_lt_mul hph).1 (Nat.lt_succ_self ((h - 1) / ph))
    exact Nat.le_of_pred_lt hlt

/-! ## Claim theorems: tiling -/

/-- C1: for every print of positive size `ph×pw` with 3 or 4 channels and
every target size `h×w` with `h, w ≥ 1`, `tile_print` returns a raster of
exactly `h×w` with the print's channel count whose pixel at `(y, x)` is the
print pixel at `(y mod ph, x mod pw)`; when the print exceeds the target in
a direction, exactly one tile is used in that direction (the tiling
degenerates to a single crop). -/
theorem C1_tile_print_coverage (p : Image) (h w : ℕ)
    (hph : 0 < p.h) (hpw : 0 < p.w) (hc : p.c = 3 ∨ p.c = 4)
    (hh : 1 ≤ h) (hw : 1 ≤ w) :
    (tile_print p h w).h = h ∧ (tile_print p h w).w = w ∧
    (tile_print p h w).c = p.c ∧
    (∀ y x k, y < h → x < w →
      (tile_print p h w).px y x k = p.px (y % p.h) (x % p.w) k) ∧
    (h ≤ p.h → npCeilDiv h p.h = 1) ∧ (w ≤ p.w → npCeilDiv w p.w = 1) := by
  refine ⟨?_, ?_, ?_, ?_, ?_, ?_⟩
  · exact min_eq_left (le_npCeilDiv_mul h p.h hph)
  · exact min_eq_left (le_npCeilDiv_mul w p.w hpw)
  · rcases hc with hc | hc <;> simp [tile_print, hc]
  · intro y x k hy hx
    show tileCanvas p (npCeilDiv h p.h) (npCeilDiv w p.w) y x k = _
    unfold tileCanvas
    rw [tileLoop_px p hph hpw]
    rw [if_pos]
    rw [List.mem_product]
    constructor
    · exact List.mem_range.2 ((Nat.div_lt_iff_lt_mul hph).2
        (lt_of_lt_of_le hy (le_npCeilDiv_mul h p.h hph)))
    · exact List.mem_range.2 ((Nat.div_lt_iff_lt_mul hpw).2
        (lt_of_lt_of_le hx (le_npCeilDiv_mul w p.w hpw)))
  · intro hle
    unfold npCeilDiv
    exact Nat.div_eq_of_lt_le (by omega) (by omega)
  · intro hle
    unfold npCeilDiv
    exact Nat.div_eq_of_lt_le (by omega) (by omega)

/-- A concrete 2×3 RGB print raster used in witnesses. -/
def cPrint : Image := ⟨2, 3, 3, fun y x k => ((y * 100 + x * 10 + k : ℕ) : ℚ)⟩

/-- Witness for C1 at a concrete print and target size. -/
theorem C1_witness :
    (0 < cPrint.h) ∧ (tile_print cPrint 5 4).h = 5 ∧
    (tile_print cPrint 5 4).w = 4 ∧
    (tile_print cPrint 5 4).px 3 2 0 = cPrint.px 1 2 0 := by
  have main := C1_tile_print_coverage cPrint 5 4 (by norm_num [cPrint])
    (by norm_num [cPrint]) (Or.inl rfl) (by norm_num) (by norm_num)
  exact ⟨by norm_num [cPrint], main.1, main.2.1,
    main.2.2.2.1 3 2 0 (by norm_num) (by norm_num)⟩

/-! ## Blend-engine lemmas -/

/-- Taking the RGB slice (or not) never changes the pixel function. -/
lemma print_rgb_px (img : Image) :
    (if img.c = 4 then rgbSlice img else img).px = img.px := by
  split <;> rfl

/-- The `uint8` cast is the identity on integral values in `[0, 255]`. -/
lemma uint8cast_nat (n : ℕ) (hn : n ≤ 255) : uint8cast (n : ℚ) = n := by
  unfold uint8cast pytrunc
  rw [if_pos (by positivity), Int.floor_natCast]
  omega

/-- The output pixel of `blend_images`, spelled out. -/
lemma blend_px_eq (fabric pr : Image) (mode : String) (op : ℚ) (y x k : ℕ) :
    (blend_images fabric pr mode op).px y x k =
      ((uint8cast ((fabric.px y x k / 255 * (1 - effStrength pr op y x)
        + blendedFormula mode (fabric.px y x k / 255) (pr.px y x k / 255)
            * effStrength pr op y x) * 255) : ℕ) : ℚ) := by
  show ((uint8cast (blendFloat fabric pr mode op y x k * 255) : ℕ) : ℚ) = _
  unfold blendFloat
  simp only [print_rgb_px]

/-- With a 3-channel print the effective strength is the scalar opacity. -/
lemma effStrength_c3 {pr : Image} (hprc : pr.c = 3) (op : ℚ) (y x : ℕ) :
    effStrength pr op y x = op := by
  unfold effStrength
  rw [hprc]
  norm_num

/-! ## Claim theorems: blending -/

/-- C3: for a 3-channel fabric and 3-channel print of the same size and any
blend mode, opacity 0 returns the fabric unchanged (in particular within the
±1-per-channel tolerance the claim allows), opacity 1 returns exactly the
8-bit conversion of the raw blended colour, and in general the output pixel
follows the compositing rule `base * (1 - strength) + B * strength`. -/
theorem C3_opacity_bounds (fabric pr : Image) (mode : String)
    (hfc : fabric.c = 3) (hprc : pr.c = 3)
    (hsz : fabric.h = pr.h ∧ fabric.w = pr.w)
    (hfab : ∀ y x k, ∃ n : ℕ, n ≤ 255 ∧ fabric.px y x k = (n : ℚ)) :
    (∀ y x k, (blend_images fabric pr mode 0).px y x k = fabric.px y x k) ∧
    (∀ y x k, |(blend_images fabric pr mode 0).px y x k - fabric.px y x k| ≤ 1) ∧
    (∀ y x k, (blend_images fabric pr mode 1).px y x k =
      ((uint8cast (blendedFormula mode (fabric.px y x k / 255)
        (pr.px y x k / 255) * 255) : ℕ) : ℚ)) ∧
    (∀ op y x k, (blend_images fabric pr mode op).px y x k =
      ((uint8cast ((fabric.px y x k / 255 * (1 - op)
        + blendedFormula mode (fabric.px y x k / 255) (pr.px y x k / 255) * op)
          * 255) : ℕ) : ℚ)) := by
  have hzero : ∀ y x k, (blend_images fabric pr mode 0).px y x k = fabric.px y x k := by
    intro y x k
    obtain ⟨n, hn, he⟩ := hfab y x k
    rw [blend_px_eq, effStrength_c3 hprc, he]
    have harg : ((n : ℚ) / 255 * (1 - 0)
        + blendedFormula mode ((n : ℚ) / 255) (pr.px y x k / 255) * 0) * 255
        = (n : ℚ) := by ring
    rw [harg, uint8cast_nat n hn]
  refine ⟨hzero, ?_, ?_, ?_⟩
  · intro y x k
    rw [hzero y x k]
    simp
  · intro y x k
    rw [blend_px_eq, effStrength_c3 hprc]
    have harg : (fabric.px y x k / 255 * (1 - 1)
        + blendedFormula mode (fabric.px y x k / 255) (pr.px y x k / 255) * 1) * 255
        = blendedFormula mode (fabric.px y x k / 255) (pr.px y x k / 255) * 255 := by
      ring
    rw [harg]
  · intro op y x k
    rw [blend_px_eq, effStrength_c3 hprc]

/-- A concrete 2×2 solid-gray RGB fabric raster used in witnesses. -/
def cFab : Image := ⟨2, 2, 3, fun _ _ _ => 128⟩

/-- A concrete 2×2 solid RGB print raster used in witnesses. -/
def cPr3 : Image := ⟨2, 2, 3, fun _ _ _ => 64⟩

/-- Witness for C3 at concrete rasters and mode `"multiply"`. -/
theorem C3_witness :
    cFab.c = 3 ∧ cPr3.c = 3 ∧
    (blend_images cFab cPr3 "multiply" 0).px 0 0 0 = cFab.px 0 0 0 ∧
    |(blend_images cFab cPr3 "multiply" 0).px 1 1 2 - cFab.px 1 1 2| ≤ 1 := by
  have main := C3_opacity_bounds cFab cPr3 "multiply" rfl rfl ⟨rfl, rfl⟩
    (fun y x k => ⟨128, by norm_num, rfl⟩)
  exact ⟨rfl, rfl, main.1 0 0 0, main.2.1 1 1 2⟩

/-- C4: for a 4-channel print the per-pixel effective strength is
`(alpha/255) * opacity`; with alpha 0 everywhere the output is the fabric
unchanged, and with alpha 255 everywhere the output coincides pixel-for-pixel
with the 3-channel scalar-opacity path applied to the print's RGB slice. -/
theorem C4_alpha_compositing (fabric pr : Image) (mode : String) (op : ℚ)
    (hprc : pr.c = 4)
    (hfab : ∀ y x k, ∃ n : ℕ, n ≤ 255 ∧ fabric.px y x k = (n : ℚ)) :
    (∀ y x, effStrength pr op y x = pr.px y x 3 / 255 * op) ∧
    ((∀ y x, pr.px y x 3 = 0) →
      ∀ y x k, (blend_images fabric pr mode op).px y x k = fabric.px y x k) ∧
    ((∀ y x, pr.px y x 3 = 255) →
      ∀ y x k, (blend_images fabric pr mode op).px y x k
        = (blend_images fabric (rgbSlice pr) mode op).px y x k) := by
  have hstr : ∀ y x, effStrength pr op y x = pr.px y x 3 / 255 * op := by
    intro y x
    unfold effStrength
    rw [if_pos hprc]
  refine ⟨hstr, ?_, ?_⟩
  · intro halpha y x k
    obtain ⟨n, hn, he⟩ := hfab y x k
    rw [blend_px_eq, he, hstr, halpha]
    have harg : ((n : ℚ) / 255 * (1 - 0 / 255 * op)
        + blendedFormula mode ((n : ℚ) / 255) (pr.px y x k / 255) * (0 / 255 * op))
          * 255 = (n : ℚ) := by ring
    rw [harg, uint8cast_nat n hn]
  · intro halpha y x k
    rw [blend_px_eq, blend_px_eq, hstr, halpha, effStrength_c3 rfl]
    show ((uint8cast ((_ + blendedFormula mode _ (pr.px y x k / 255) * _) * 255) : ℕ) : ℚ)
      = ((uint8cast ((_ + blendedFormula mode _ ((rgbSlice pr).px y x k / 255) * _) * 255) : ℕ) : ℚ)
    have hpx : (rgbSlice pr).px y x k = pr.px y x k := rfl
    rw [hpx]
    norm_num

/-- C5: the overlay formula is continuous at `base = 1/2`: for every print
value `p` in `[0, 1]` the low branch, the high branch and the piecewise
rule itself all evaluate to `p` at `base = 1/2`. -/
theorem C5_overlay_continuity (p : ℚ) (h0 : 0 ≤ p) (h1 : p ≤ 1) :
    overlayLow (1/2) p = p ∧ overlayHigh (1/2) p = p ∧
    overlayFormula (1/2) p = p := by
  refine ⟨by unfold overlayLow; ring, by unfold overlayHigh; ring, ?_⟩
  unfold overlayFormula
  rw [if_neg (by norm_num)]
  unfold overlayHigh
  ring

/-- Witness for C5 at `p = 1/3`. -/
theorem C5_witness :
    ((0 : ℚ) ≤ 1/3 ∧ (1/3 : ℚ) ≤ 1) ∧
    overlayLow (1/2) (1/3) = 1/3 ∧ overlayHigh (1/2) (1/3) = 1/3 ∧
    overlayFormula (1/2) (1/3) = 1/3 :=
  ⟨⟨by norm_num, by norm_num⟩, C5_overlay_continuity (1/3) (by norm_num) (by norm_num)⟩

/-- C6: for every mode string other than `"overlay"`, `"multiply"` and
`"screen"` the blend operation returns exactly the raster it returns for
mode `"overlay"`; an unknown mode never fails. -/
theorem C6_unknown_mode_fallback (fabric pr : Image) (mode : String) (op : ℚ)
    (h1 : mode ≠ "overlay") (h2 : mode ≠ "multiply") (h3 : mode ≠ "screen") :
    blend_images fabric pr mode op = blend_images fabric pr "overlay" op := by
  have hbf : ∀ b p : ℚ, blendedFormula mode b p = blendedFormula "overlay" b p := by
    intro b p
    unfold blendedFormula
    rw [if_neg h1, if_neg h2, if_neg h3, if_pos rfl]
  unfold blend_images blendFloat
  simp only [hbf]

/-- Witness for C6 at concrete rasters and the unknown mode `"linear"`. -/
theorem C6_witness :
    ("linear" ≠ "overlay" ∧ "linear" ≠ "multiply" ∧ "linear" ≠ "screen") ∧
    blend_images cFab cPr3 "linear" (7/10) = blend_images cFab cPr3 "overlay" (7/10) :=
  ⟨⟨by decide, by decide, by decide⟩,
    C6_unknown_mode_fallback cFab cPr3 "linear" (7/10) (by decide) (by decide) (by decide)⟩

/-- Every blend-mode formula maps `[0,1] × [0,1]` into `[0,1]`. -/
lemma blendedFormula_bounds (mode : String) {b p : ℚ}
    (hb0 : 0 ≤ b) (hb1 : b ≤ 1) (hp0 : 0 ≤ p) (hp1 : p ≤ 1) :
    0 ≤ blendedFormula mode b p ∧ blendedFormula mode b p ≤ 1 := by
  unfold blendedFormula overlayFormula overlayLow overlayHigh
  split_ifs <;> constructor <;>
    nlinarith [mul_nonneg hb0 hp0,
      mul_nonneg (sub_nonneg.2 hb1) (sub_nonneg.2 hp1),
      mul_nonneg hb0 (sub_nonneg.2 hp1),
      mul_nonneg (sub_nonneg.2 hb1) hp0]

/-- The effective strength lies in `[0,1]` whenever the print's channel
values lie in `[0,255]` and the opacity lies in `[0,1]`. -/
lemma effStrength_bounds (pr : Image) (op : ℚ)
    (hpr : ∀ y x k, 0 ≤ pr.px y x k ∧ pr.px y x k ≤ 255)
    (hop0 : 0 ≤ op) (hop1 : op ≤ 1) (y x : ℕ) :
    0 ≤ effStrength pr op y x ∧ effStrength pr op y x ≤ 1 := by
  unfold effStrength
  split_ifs with h
  · obtain ⟨ha0, ha1⟩ := hpr y x 3
    have hd0 : 0 ≤ pr.px y x 3 / 255 := by positivity
    have hd1 : pr.px y x 3 / 255 ≤ 1 := by
      rw [div_le_one (by norm_num : (0:ℚ) < 255)]
      exact ha1
    exact ⟨mul_nonneg hd0 hop0, mul_le_one₀ hd1 hop0 hop1⟩
  · exact ⟨hop0, hop1⟩

/-- The floating-point blend result lies in `[0,1]` on 8-bit inputs. -/
lemma blendFloat_bounds (fabric pr : Image) (mode : String) (op : ℚ)
    (hfab : ∀ y x k, 0 ≤ fabric.px y x k ∧ fabric.px y x k ≤ 255)
    (hpr : ∀ y x k, 0 ≤ pr.px y x k ∧ pr.px y x k ≤ 255)
    (hop0 : 0 ≤ op) (hop1 : op ≤ 1) (y x k : ℕ) :
    0 ≤ blendFloat fabric pr mode op y x k ∧
      blendFloat fabric pr mode op y x k ≤ 1 := by
  unfold blendFloat
  simp only [print_rgb_px]
  obtain ⟨hs0, hs1⟩ := effStrength_bounds pr op hpr hop0 hop1 y x
  obtain ⟨hf0, hf1⟩ := hfab y x k
  obtain ⟨hp0, hp1⟩ := hpr y x k
  have hb0 : 0 ≤ fabric.px y x k / 255 := by positivity
  have hb1 : fabric.px y x k / 255 ≤ 1 := by
    rw [div_le_one (by norm_num : (0:ℚ) < 255)]
    exact hf1
  have hq0 : 0 ≤ pr.px y x k / 255 := by positivity
  have hq1 : pr.px y x k / 255 ≤ 1 := by
    rw [div_le_one (by norm_num : (0:ℚ) < 255)]
    exact hp1
  obtain ⟨hB0, hB1⟩ := blendedFormula_bounds mode hb0 hb1 hq0 hq1
  constructor
  · have h1 : 0 ≤ fabric.px y x k / 255 * (1 - effStrength pr op y x) :=
      mul_nonneg hb0 (by linarith)
    have h2 : 0 ≤ blendedFormula mode (fabric.px y x k / 255) (pr.px y x k / 255)
        * effStrength pr op y x := mul_nonneg hB0 hs0
    linarith
  · nlinarith [mul_nonneg (sub_nonneg.2 hb1) (sub_nonneg.2 hs1),
      mul_nonneg (sub_nonneg.2 hB1) hs0,
      mul_nonneg (sub_nonneg.2 hb1) hs0]

/-- C7: on 8-bit inputs (all channel values in `[0,255]`) with opacity in
`[0,1]`, every channel of the floating-point blend result lies in `[0,1]`;
consequently the `uint8` cast of `result * 255` coincides with its clamped
version (it never wraps), and the output raster has exactly 3 channels. -/
theorem C7_output_range (fabric pr : Image) (mode : String) (op : ℚ)
    (hfc : fabric.c = 3)
    (hfab : ∀ y x k, 0 ≤ fabric.px y x k ∧ fabric.px y x k ≤ 255)
    (hpr : ∀ y x k, 0 ≤ pr.px y x k ∧ pr.px y x k ≤ 255)
    (hop : 0 ≤ op ∧ op ≤ 1) :
    (∀ y x k, 0 ≤ blendFloat fabric pr mode op y x k ∧
      blendFloat fabric pr mode op y x k ≤ 1) ∧
    (∀ y x k, uint8cast (blendFloat fabric pr mode op y x k * 255)
      = clampCast (blendFloat fabric pr mode op y x k * 255)) ∧
    (blend_images fabric pr mode op).c = 3 := by
  have hbf := fun y x k =>
    blendFloat_bounds fabric pr mode op hfab hpr hop.1 hop.2 y x k
  refine ⟨hbf, ?_, hfc⟩
  intro y x k
  obtain ⟨hr0, hr1⟩ := hbf y x k
  have hq0 : 0 ≤ blendFloat fabric pr mode op y x k * 255 := by positivity
  have hq1 : blendFloat fabric pr mode op y x k * 255 ≤ 255 := by nlinarith
  have hfl0 : (0:ℤ) ≤ ⌊blendFloat fabric pr mode op y x k * 255⌋ :=
    Int.le_floor.2 (by exact_mod_cast hq0)
  have hfl1 : ⌊blendFloat fabric pr mode op y x k * 255⌋ ≤ 255 := by
    have := Int.floor_le_floor (α := ℚ) hq1
    simpa using this
  unfold uint8cast clampCast pytrunc
  rw [if_pos hq0]
  omega

/-- Witness for C7 at concrete rasters, mode `"screen"`, opacity `1/2`. -/
theorem C7_witness :
    ((0:ℚ) ≤ 1/2 ∧ (1/2:ℚ) ≤ 1) ∧
    (0 ≤ blendFloat cFab cPr3 "screen" (1/2) 0 0 0 ∧
      blendFloat cFab cPr3 "screen" (1/2) 0 0 0 ≤ 1) ∧
    uint8cast (blendFloat cFab cPr3 "screen" (1/2) 0 0 0 * 255)
      = clampCast (blendFloat cFab cPr3 "screen" (1/2) 0 0 0 * 255) ∧
    (blend_images cFab cPr3 "screen" (1/2)).c = 3 := by
  have main := C7_output_range cFab cPr3 "screen" (1/2) rfl
    (fun y x k => by norm_num [cFab]) (fun y x k => by norm_num [cPr3])
    ⟨by norm_num, by norm_num⟩
  exact ⟨⟨by norm_num, by norm_num⟩, main.1 0 0 0, main.2.1 0 0 0, main.2.2⟩

/-! ## Claim theorems: resize geometry -/

/-- Counterexample to C2 as stated: at target height 3 and scale `1/2` the
code truncates `3 * (1/2)` to 1 while the claimed `round` gives 2, and at
target height 1 and scale `1/2` the resulting dimension is 0, not `≥ 1`. -/
theorem C2_round_cex :
    (resize_print cPrint 3 3 (1/2)).h = 1 ∧ specRoundDim 3 (1/2) = 2 ∧
    (resize_print cPrint 1 1 (1/2)).h = 0 := by
  refine ⟨?_, ?_, ?_⟩
  · show (pytrunc (((3:ℕ) : ℚ) * (1/2))).toNat = 1
    rw [show ((3:ℕ) : ℚ) * (1/2) = 3/2 by norm_num]
    unfold pytrunc
    rw [if_pos (by norm_num), show ⌊(3/2 : ℚ)⌋ = 1 from Int.floor_eq_iff.2 (by norm_num)]
    rfl
  · show (round (((3:ℕ) : ℚ) * (1/2))).toNat = 2
    rw [show ((3:ℕ) : ℚ) * (1/2) = 3/2 by norm_num, round_eq,
      show (3/2 : ℚ) + 1/2 = 2 by norm_num,
      show ⌊(2 : ℚ)⌋ = 2 from by exact_mod_cast Int.floor_intCast (2:ℤ)]
    rfl
  · show (pytrunc (((1:ℕ) : ℚ) * (1/2))).toNat = 0
    rw [show ((1:ℕ) : ℚ) * (1/2) = 1/2 by norm_num]
    unfold pytrunc
    rw [if_pos (by norm_num), show ⌊(1/2 : ℚ)⌋ = 0 from Int.floor_eq_iff.2 (by norm_num)]
    rfl

/-- C2 amended: `resize_print` resamples to `int(target_h * scale)` by
`int(target_w * scale)` (Python truncation toward zero, not rounding),
preserving the channel count; the dimensions are `≥ 1` exactly when
`target * scale ≥ 1`. -/
theorem C2_resize_trunc (p : Image) (th tw : ℕ) (s : ℚ)
    (h1 : 1 ≤ (th : ℚ) * s) (h2 : 1 ≤ (tw : ℚ) * s) :
    (resize_print p th tw s).h = (pytrunc ((th : ℚ) * s)).toNat ∧
    (resize_print p th tw s).w = (pytrunc ((tw : ℚ) * s)).toNat ∧
    1 ≤ (resize_print p th tw s).h ∧ 1 ≤ (resize_print p th tw s).w ∧
    (resize_print p th tw s).c = p.c := by
  have key : ∀ q : ℚ, 1 ≤ q → 1 ≤ (pytrunc q).toNat := by
    intro q hq
    unfold pytrunc
    rw [if_pos (le_trans zero_le_one hq)]
    have : (1 : ℤ) ≤ ⌊q⌋ := Int.le_floor.2 (by exact_mod_cast hq)
    omega
  exact ⟨rfl, rfl, key _ h1, key _ h2, rfl⟩

/-- Witness for the amended C2 at a concrete print, target 5×4, scale `1/2`. -/
theorem C2_witness :
    (1 ≤ ((5:ℕ) : ℚ) * (1/2) ∧ 1 ≤ ((4:ℕ) : ℚ) * (1/2)) ∧
    (resize_print cPrint 5 4 (1/2)).h = (pytrunc (((5:ℕ) : ℚ) * (1/2))).toNat ∧
    1 ≤ (resize_print cPrint 5 4 (1/2)).h ∧
    (resize_print cPrint 5 4 (1/2)).c = cPrint.c := by
  have main := C2_resize_trunc cPrint 5 4 (1/2) (by norm_num) (by norm_num)
  exact ⟨⟨by norm_num, by norm_num⟩, main.1, main.2.2.1, main.2.2.2.2⟩

/-! ## Claim theorems: loaders -/

/-- A concrete 1×1 RGBA raster used as a decoded print. -/
def cRGBA : Image := ⟨1, 1, 4, fun _ _ _ => 9⟩

/-- Counterexample to C8 as stated: the path `"photopng"` has no `".png"`
extension (no dot), yet `load_print` takes the alpha-preserving branch and
returns a 4-channel raster for it. -/
theorem C8_png_branch_cex :
    (load_print "photopng" cRGBA).c = 4 ∧ hasPngExtension "photopng" = false := by
  refine ⟨?_, ?_⟩ <;> decide

/-- C8 amended: `load_print` takes the alpha-preserving branch exactly when
the lowercased path ends with `"png"` (the dot is not required); in that
branch a 4-channel decode is kept as 4-channel RGBA and any other decode
becomes 3-channel RGB, and outside it the result always has 3 RGB channels. -/
theorem C8_png_branch (path : String) (decoded : Image) :
    (load_print path decoded).c =
      if (pyEndsWith (pyLower path) "png") = true ∧ decoded.c = 4 then 4 else 3 := by
  by_cases hb : pyEndsWith (pyLower path) "png" = true
  · by_cases hc : decoded.c = 4
    · simp [load_print, imreadUnchanged, hb, hc, cvtColor_BGRA2RGBA]
    · simp [load_print, imreadUnchanged, hb, hc, cvtColor_BGR2RGB]
  · simp [load_print, imreadUnchanged, hb, cvtColor_BGR2RGB, imreadColor]

/-- C9's failing scenario: the source's `blend_images` contains no shape
check at all and defines no `ShapeMismatchError`; on a 1×1 fabric and a 2×2
print (whose NumPy shapes broadcast) it simply returns a raster.  Here the
modelled blend evaluates normally at the mismatched pair: fabric pixel 100
and print pixel 255 under overlay at opacity `7/10` give output 170. -/
def fabOne : Image := ⟨1, 1, 3, fun _ _ _ => 100⟩

/-- A 2×2 solid-white print, size-mismatched with `fabOne`. -/
def prTwo : Image := ⟨2, 2, 3, fun _ _ _ => 255⟩

/-- C9: contrary to the claim, blending rasters of differing height/width
does not fail — `blend_images` has no defensive shape check and returns a
raster with ordinary pixel values. -/
theorem C9_no_shape_check :
    fabOne.h ≠ prTwo.h ∧ fabOne.w ≠ prTwo.w ∧
    (blend_images fabOne prTwo "overlay" (7/10)).px 0 0 0 = 170 := by
  have hb : blendedFormula "overlay" ((100:ℚ)/255) ((255:ℚ)/255) = 40/51 := by
    unfold blendedFormula overlayFormula overlayLow
    rw [if_pos rfl, if_pos (by norm_num)]
    norm_num
  have harg : blendFloat fabOne prTwo "overlay" (7/10) 0 0 0 * 255 = ((170:ℕ) : ℚ) := by
    unfold blendFloat
    simp only [print_rgb_px]
    unfold effStrength
    rw [if_neg (by norm_num [prTwo])]
    show ((100:ℚ)/255 * (1 - 7/10)
      + blendedFormula "overlay" ((100:ℚ)/255) ((255:ℚ)/255) * (7/10)) * 255 = _
    rw [hb]
    norm_num
  refine ⟨by decide, by decide, ?_⟩
  show ((uint8cast (blendFloat fabOne prTwo "overlay" (7/10) 0 0 0 * 255) : ℕ) : ℚ) = 170
  rw [harg, uint8cast_nat 170 (by norm_num)]
  norm_num

/-- C10: the fabric loader always returns a 3-channel RGB raster (the
default `cv2.imread` drops any alpha at decode time), which establishes the
blend engine's precondition that its base — and hence its output — is
3-channel. -/
theorem C10_fabric_rgb (decoded : Image) :
    (load_fabric decoded).c = 3 ∧
    ∀ pr mode op, (blend_images (load_fabric decoded) pr mode op).c = 3 :=
  ⟨rfl, fun _ _ _ => rfl⟩

/-- A concrete 2×2 RGBA print with alpha 0 everywhere. -/
def cPr4_0 : Image := ⟨2, 2, 4, fun _ _ k => if k = 3 then 0 else 64⟩

/-- A concrete 2×2 RGBA print with alpha 255 everywhere. -/
def cPr4_255 : Image := ⟨2, 2, 4, fun _ _ k => if k = 3 then 255 else 64⟩

/-- Witness for C4 at concrete rasters with alpha 0 and alpha 255. -/
theorem C4_witness :
    cPr4_0.c = 4 ∧ cPr4_255.c = 4 ∧
    effStrength cPr4_255 (7/10) 0 0 = cPr4_255.px 0 0 3 / 255 * (7/10) ∧
    (blend_images cFab cPr4_0 "overlay" (7/10)).px 0 0 0 = cFab.px 0 0 0 ∧
    (blend_images cFab cPr4_255 "overlay" (7/10)).px 0 0 1
      = (blend_images cFab (rgbSlice cPr4_255) "overlay" (7/10)).px 0 0 1 := by
  have m0 := C4_alpha_compositing cFab cPr4_0 "overlay" (7/10) rfl
    (fun y x k => ⟨128, by norm_num, rfl⟩)
  have m255 := C4_alpha_compositing cFab cPr4_255 "overlay" (7/10) rfl
    (fun y x k => ⟨128, by norm_num, rfl⟩)
  exact ⟨rfl, rfl, m255.1 0 0, m0.2.1 (fun y x => rfl) 0 0 0,
    m255.2.2 (fun y x => rfl) 0 0 1⟩
